import Mathlib

/-!
Verification of the text-to-flowchart repository (kirill778/flowchart).

The repository contains three variants of the same single-screen feature:
* `src/src/App.tsx` — a ReactFlow-based variant ("App variant" below);
* the first part of `src/unnamed/part_000` — a ReactFlow-based variant with
  editable/deletable nodes ("Pt variant" below);
* the second part of `src/unnamed/part_000` — a variant that renders static
  SVG markup ("Svg variant" below).

The definitions below are shallow embeddings of the string-processing and
diagram-building functions of those files.  JavaScript strings are modelled
as Lean `String`/`List Char`; the JS whitespace class `\s` is modelled by the
ASCII whitespace characters; JS numbers appearing in template literals such
as `node-0` are printed in decimal.  React state updates are modelled as
pure functions on explicit state records; the network call of the chat
handlers is modelled by an outcome parameter.
-/

/-- ASCII part of the JS regex class `\s` (and of the whitespace set trimmed
by `String.prototype.trim`): space, tab, line feed, carriage return,
vertical tab, form feed. -/
def isSpaceChar (c : Char) : Bool :=
  c = ' ' || c = '\t' || c = '\x0a' || c = '\x0d' || c = '\x0b' || c = '\x0c'

/-- Line terminators, which the JS regex dot `.` never matches. -/
def isLineTerm (c : Char) : Bool :=
  c = '\x0a' || c = '\x0d'

/-- Lower- or upper-case Cyrillic letter sha, for the case-insensitive
regexes over the word for step. -/
def isShagSh (c : Char) : Bool := c = 'ш' || c = 'Ш'

/-- Lower- or upper-case Cyrillic letter a. -/
def isShagA (c : Char) : Bool := c = 'а' || c = 'А'

/-- Lower- or upper-case Cyrillic letter ge. -/
def isShagG (c : Char) : Bool := c = 'г' || c = 'Г'

/-- Remove leading and trailing whitespace from a character list. -/
def trimChars (l : List Char) : List Char :=
  ((l.dropWhile isSpaceChar).reverse.dropWhile isSpaceChar).reverse

/-- Model of `String.prototype.trim`. -/
def jsTrim (s : String) : String :=
  String.mk (trimChars s.data)

/-- Model of `String.prototype.includes` for a one-character needle. -/
def strContains (s : String) (c : Char) : Bool :=
  s.data.contains c

/-- Model of `String.prototype.startsWith` for a one-character needle. -/
def lineStartsWith (c : Char) (s : String) : Bool :=
  match s.data with
  | [] => false
  | x :: _ => x = c

/-- Accumulator loop behind `splitOnChar`. -/
def splitCharAux (c : Char) : List Char → List Char → List String
  | [], acc => [String.mk acc.reverse]
  | x :: xs, acc =>
    if x = c then String.mk acc.reverse :: splitCharAux c xs []
    else splitCharAux c xs (x :: acc)

/-- Model of `String.prototype.split` with a one-character separator:
keeps empty segments, exactly like JavaScript. -/
def splitOnChar (c : Char) (s : String) : List String :=
  splitCharAux c s.data []

/-- The split-trim-filter pipeline `input.split(sep).filter(Boolean)
.map(s => s.trim()).filter(s => s.length > 0)` used throughout the
fallback parsing of the repository. -/
def splitTrimFilter (c : Char) (s : String) : List String :=
  ((((splitOnChar c s).filter (fun t => t ≠ "")).map jsTrim).filter
    (fun t => 0 < t.length))

/-- Decimal digit list of `n` (most significant first), produced with an
explicit fuel so that the definition is structurally recursive and hence
evaluates inside the kernel.  With `fuel ≥ n` the digits are complete. -/
def natToDecAux : Nat → Nat → List Char
  | 0, _ => []
  | _, 0 => []
  | fuel + 1, n => natToDecAux fuel (n / 10) ++ [Nat.digitChar (n % 10)]

/-- Decimal rendering of a natural number, as produced by a JS template
literal such as `node-0` for an integer-valued number. -/
def natToDec (n : Nat) : String :=
  if n = 0 then "0" else String.mk (natToDecAux n n)

/-- Node id `node-<index>` used by `generateFlowFromSteps` in both
ReactFlow variants. -/
def mkNodeId (i : Nat) : String :=
  "node-" ++ natToDec i

/-- The observable part of a ReactFlow node built by the repository:
its id, position and label.  Styling and the edit/delete callbacks of the
Pt variant are presentation-only and are not modelled. -/
structure FlowNode where
  id : String
  x : Nat
  y : Nat
  label : String
deriving DecidableEq

/-- The observable part of a ReactFlow edge: its id and endpoint node ids.
Styling and arrow markers are not modelled. -/
structure FlowEdge where
  id : String
  source : String
  target : String
deriving DecidableEq

/-- The diagram part of the component state: the node and edge arrays. -/
structure Flowchart where
  nodes : List FlowNode
  edges : List FlowEdge
deriving DecidableEq

/-- Result of one diagram-building call: the new node array, the new edge
array, and the value passed to `setNextNodeId`. -/
structure GenResult where
  nodes : List FlowNode
  edges : List FlowEdge
  nextNodeId : Nat
deriving DecidableEq

/-- The sequential edge `edge-<i>-<i+1>` from `node-<i>` to `node-<i+1>`,
as built by `generateFlowFromSteps` (index `i+1` in the App variant loop,
loop variable `i` in the Pt variant). -/
def mkSeqEdge (i : Nat) : FlowEdge :=
  { id := "edge-" ++ natToDec i ++ "-" ++ natToDec (i + 1),
    source := mkNodeId i,
    target := mkNodeId (i + 1) }

/-- Model of the global replacement `step.replace(/```mermaid|```/g, '')`:
scan left to right, removing a backtick-fence-plus-mermaid run in
preference to a bare backtick fence, and continue after the removed text. -/
def replaceTicksMermaid : List Char → List Char
  | '\x60' :: '\x60' :: '\x60' :: 'm' :: 'e' :: 'r' :: 'm' :: 'a' :: 'i' :: 'd' :: rest =>
    replaceTicksMermaid rest
  | '\x60' :: '\x60' :: '\x60' :: rest => replaceTicksMermaid rest
  | c :: rest => c :: replaceTicksMermaid rest
  | [] => []

/-- Try to match the case-insensitive regex `graph\s+<t1><t2>` at the head
of the list, returning the characters after the match. -/
def matchGraphKeyword (t1 t2 : Char) (l : List Char) : Option (List Char) :=
  match l with
  | g :: r :: a :: p :: h :: rest =>
    if g.toLower = 'g' && r.toLower = 'r' && a.toLower = 'a'
        && p.toLower = 'p' && h.toLower = 'h' then
      if (rest.takeWhile isSpaceChar).length = 0 then none
      else
        match rest.dropWhile isSpaceChar with
        | x :: y :: rest2 =>
          if x.toLower = t1 && y.toLower = t2 then some rest2 else none
        | _ => none
    else none
  | _ => none

/-- Model of `step.replace(/graph\s+<T1><T2>/i, '')`: remove the first
occurrence only. -/
def replaceFirstGraph (t1 t2 : Char) : List Char → List Char
  | [] => []
  | c :: cs =>
    match matchGraphKeyword t1 t2 (c :: cs) with
    | some rest => rest
    | none => c :: replaceFirstGraph t1 t2 cs

/-- The per-step cleaning done at the start of `generateFlowFromSteps` in
both ReactFlow variants: remove backtick fences and mermaid markers, the
first `graph TD`, the first `graph LR`, then trim. -/
def cleanStep (step : String) : String :=
  jsTrim (String.mk (replaceFirstGraph 'l' 'r'
    (replaceFirstGraph 't' 'd' (replaceTicksMermaid step.data))))

/-- `processedSteps` of `generateFlowFromSteps`: clean every step and drop
the steps that became empty. -/
def processSteps (steps : List String) : List String :=
  (steps.map cleanStep).filter (fun s => 0 < s.length)

/-- The node/edge building loop of `generateFlowFromSteps` in the App
variant (`src/src/App.tsx`): one forEach over the processed steps with a
running index, pushing a node for every step and, from the second step on,
an edge from the previous node.  Constants: nodeWidth 200, nodeHeight 80,
gap 100. -/
def buildFlowApp (isHorizontal : Bool) : Nat → List String → List FlowNode × List FlowEdge
  | _, [] => ([], [])
  | index, step :: rest =>
    let r := buildFlowApp isHorizontal (index + 1) rest
    ({ id := mkNodeId index,
       x := if isHorizontal then index * (200 + 100) + 100 else 250,
       y := if isHorizontal then 100 else index * (80 + 100) + 50,
       label := step } :: r.1,
     (if 0 < index then [mkSeqEdge (index - 1)] else []) ++ r.2)

/-- `generateFlowFromSteps` of the App variant.  The previous nodes and
edges are discarded and replaced by the freshly built arrays;
`setNextNodeId` receives the processed step count plus one. -/
def generateFlowFromStepsApp (steps : List String) (isHorizontal : Bool) : GenResult :=
  let processedSteps := processSteps steps
  let r := buildFlowApp isHorizontal 0 processedSteps
  { nodes := r.1, edges := r.2, nextNodeId := processedSteps.length + 1 }

/-- The node building loop of `generateFlowFromSteps` in the Pt variant
(first part of `src/unnamed/part_000`).  Constants: nodeWidth 180,
nodeHeight 70, gap 80. -/
def buildNodesPt (isHorizontal : Bool) : Nat → List String → List FlowNode
  | _, [] => []
  | index, step :: rest =>
    { id := mkNodeId index,
      x := if isHorizontal then index * (180 + 80) + 100 else 250,
      y := if isHorizontal then 100 else index * (70 + 80) + 50,
      label := step } :: buildNodesPt isHorizontal (index + 1) rest

/-- `generateFlowFromSteps` of the Pt variant: the nodes are built in one
loop, the edges in a separate loop `for i in [0, length-1)`, and after the
delayed `setEdges` calls settle the edge state equals that edge list. -/
def generateFlowFromStepsPt (steps : List String) (isHorizontal : Bool) : GenResult :=
  let processedSteps := processSteps steps
  { nodes := buildNodesPt isHorizontal 0 processedSteps,
    edges := (List.range (processedSteps.length - 1)).map mkSeqEdge,
    nextNodeId := processedSteps.length + 1 }

/-- One entry of the flow structure passed to the complex-flowchart
builders: a main text plus optional texts placed to the right and below. -/
structure StructNode where
  text : String
  right : Option String
  below : Option String
deriving DecidableEq

/-- Main node id `node-<i>-main` of `generateComplexFlowchart`. -/
def complexMainId (i : Nat) : String :=
  "node-" ++ natToDec i ++ "-main"

/-- Nodes pushed for one structure entry by `generateComplexFlowchart`
(identical in both ReactFlow variants): the main node, then the right node
when present, then the below node when present.  Constants: nodeWidth 200,
nodeHeight 80, gapX 250, gapY 150. -/
def complexEntryNodes (i : Nat) (sn : StructNode) : List FlowNode :=
  [{ id := complexMainId i, x := 250, y := i * (80 + 150) + 50, label := sn.text }]
  ++ (match sn.right with
      | some r =>
        [{ id := "node-" ++ natToDec i ++ "-right",
           x := 250 + 200 + 250, y := i * (80 + 150) + 50, label := r }]
      | none => [])
  ++ (match sn.below with
      | some b =>
        [{ id := "node-" ++ natToDec i ++ "-below",
           x := 250, y := i * (80 + 150) + 50 + 80 + 150 / 2, label := b }]
      | none => [])

/-- Edges pushed for one structure entry by `generateComplexFlowchart`: to
the right node when present, to the below node when present, and from the
previous main node when the index is positive. -/
def complexEntryEdges (i : Nat) (sn : StructNode) : List FlowEdge :=
  (match sn.right with
   | some _ =>
     [{ id := "edge-" ++ natToDec i ++ "-right",
        source := complexMainId i,
        target := "node-" ++ natToDec i ++ "-right" }]
   | none => [])
  ++ (match sn.below with
      | some _ =>
        [{ id := "edge-" ++ natToDec i ++ "-below",
           source := complexMainId i,
           target := "node-" ++ natToDec i ++ "-below" }]
      | none => [])
  ++ (if 0 < i then
        [{ id := "edge-" ++ natToDec (i - 1) ++ "-" ++ natToDec i,
           source := complexMainId (i - 1),
           target := complexMainId i }]
      else [])

/-- The forEach-with-index loop of `generateComplexFlowchart`. -/
def complexBuild : Nat → List StructNode → List FlowNode × List FlowEdge
  | _, [] => ([], [])
  | i, sn :: rest =>
    let r := complexBuild (i + 1) rest
    (complexEntryNodes i sn ++ r.1, complexEntryEdges i sn ++ r.2)

/-- `generateComplexFlowchart` of the ReactFlow variants. -/
def generateComplexFlowchart (structureList : List StructNode) : GenResult :=
  let r := complexBuild 0 structureList
  { nodes := r.1, edges := r.2, nextNodeId := r.1.length + 1 }

/-- Position-updating map of `rearrangeFlowchart` in the Pt variant,
with its constants nodeWidth 180, nodeHeight 70, gap 80. -/
def rearrangeNodesPt (isHorizontal : Bool) : Nat → List FlowNode → List FlowNode
  | _, [] => []
  | index, node :: rest =>
    { node with
      x := if isHorizontal then index * (180 + 80) + 100 else 250,
      y := if isHorizontal then 100 else index * (70 + 80) + 50 }
    :: rearrangeNodesPt isHorizontal (index + 1) rest

/-- The edge-rebuilding loop of `rearrangeFlowchart` in the Pt variant:
an edge `edge-<i>-<i+1>` between each pair of consecutive nodes of the
updated node array. -/
def consecEdges : Nat → List FlowNode → List FlowEdge
  | _, [] => []
  | _, [_] => []
  | i, a :: b :: rest =>
    { id := "edge-" ++ natToDec i ++ "-" ++ natToDec (i + 1),
      source := a.id, target := b.id }
    :: consecEdges (i + 1) (b :: rest)

/-- `rearrangeFlowchart` of the Pt variant: a no-op on an empty diagram,
otherwise reposition every node and rebuild the sequential edges (the state
after the delayed `setEdges` calls settle). -/
def rearrangeFlowchartPt (isHorizontal : Bool) (fc : Flowchart) : Flowchart :=
  if fc.nodes.length = 0 then fc
  else
    let updatedNodes := rearrangeNodesPt isHorizontal 0 fc.nodes
    { nodes := updatedNodes, edges := consecEdges 0 updatedNodes }

/-- `deleteNode` of the Pt variant: keep the nodes whose id differs from
the deleted one and the edges that touch it at neither endpoint. -/
def deleteNode (nodeId : String) (fc : Flowchart) : Flowchart :=
  { nodes := fc.nodes.filter (fun node => node.id != nodeId),
    edges := fc.edges.filter (fun edge => edge.source != nodeId && edge.target != nodeId) }

/-- The invariant that every edge endpoint is the id of some node. -/
def edgesValid (fc : Flowchart) : Bool :=
  fc.edges.all fun e =>
    (fc.nodes.any fun n => n.id == e.source) && (fc.nodes.any fun n => n.id == e.target)

/-- Role of a chat message. -/
inductive ChatRole where
  | user
  | assistant
deriving DecidableEq

/-- The `ChatMessage` interface shared by all three variants. -/
structure ChatMessage where
  role : ChatRole
  content : String
deriving DecidableEq

/-- The component-local state relevant to generation and chat: the current
nodes, edges, chat history and the manual-add counter. -/
structure AppState where
  nodes : List FlowNode
  edges : List FlowEdge
  chatHistory : List ChatMessage
  nextNodeId : Nat
deriving DecidableEq

/-- The state updates performed by a `generateFlowFromSteps` call in the
App variant: `setNodes`, `setEdges` and `setNextNodeId` are invoked (the
old arrays are first cleared and then replaced by the new ones), and no
other setter is called — in particular `setChatHistory` is not. -/
def applyGenerateFlowFromStepsApp (steps : List String) (isHorizontal : Bool)
    (st : AppState) : AppState :=
  let r := generateFlowFromStepsApp steps isHorizontal
  { st with nodes := r.nodes, edges := r.edges, nextNodeId := r.nextNodeId }

/-- Outcome of the awaited model call inside a chat handler: either a
response text or a thrown error. -/
inductive ModelOutcome where
  | ok (text : String)
  | err
deriving DecidableEq

/-- The confirmation reply of the App variant orientation shortcut. -/
def appOrientReply (isHorizontal : Bool) : String :=
  "Готово! Блок-схема переорганизована в "
    ++ (if isHorizontal then "горизонтальный" else "вертикальный") ++ " вид."

/-- The error reply appended by the catch branch of `handleSendMessage`
in both ReactFlow variants. -/
def appErrorReply : String :=
  "Извините, произошла ошибка при обработке вашего запроса. Пожалуйста, проверьте подключение к Ollama и убедитесь, что сервер запущен."

/-- The chat-history effect of `handleSendMessage` in the App variant.
The handler first appends the user message; on the orientation shortcut it
then appends a fixed confirmation, on a successful model call the response
text, and on a thrown error the error reply.  Each update is an append of
one message via `setChatHistory(prev => [...prev, m])`. -/
def appChatHistoryAfter (history : List ChatMessage) (chatInput : String)
    (orientationShortcut : Bool) (isHorizontal : Bool)
    (out : ModelOutcome) : List ChatMessage :=
  if orientationShortcut then
    (history ++ [{ role := .user, content := chatInput }])
      ++ [{ role := .assistant, content := appOrientReply isHorizontal }]
  else
    match out with
    | .ok t =>
      (history ++ [{ role := .user, content := chatInput }])
        ++ [{ role := .assistant, content := t }]
    | .err =>
      (history ++ [{ role := .user, content := chatInput }])
        ++ [{ role := .assistant, content := appErrorReply }]

/-- The chat-history effect of `handleSendMessage` in the Pt variant: the
user message is appended, then either the assistant response or the error
reply. -/
def ptChatHistoryAfter (history : List ChatMessage) (chatInput : String)
    (out : ModelOutcome) : List ChatMessage :=
  match out with
  | .ok t =>
    (history ++ [{ role := .user, content := chatInput }])
      ++ [{ role := .assistant, content := t }]
  | .err =>
    (history ++ [{ role := .user, content := chatInput }])
      ++ [{ role := .assistant, content := appErrorReply }]

/-- The short-input path of `generateFlowchart` in the App variant: when
the trimmed input has fewer than five characters the handler calls
`generateFlowFromSteps([input.trim()])` directly, performs no model call,
and leaves the error state at the empty string it was just reset to.
The pair is the generation result together with the final error text. -/
def generateFlowchartShortApp (input : String) : GenResult × String :=
  (generateFlowFromStepsApp [jsTrim input] false, "")

/-- Try to match the case-insensitive regex fragment `шаг\s+(\d+)` at the
head of the character list.  On success, return the digit capture and the
characters after the digits.  `\s+` and `\d+` are greedy; since whitespace,
digits and the following characters are disjoint classes, no backtracking
can change the result. -/
def matchStepMention (l : List Char) : Option (List Char × List Char) :=
  match l with
  | c1 :: c2 :: c3 :: rest =>
    if isShagSh c1 && isShagA c2 && isShagG c3 then
      if (rest.takeWhile isSpaceChar).length = 0 then none
      else
        let afterSp := rest.dropWhile isSpaceChar
        let ds := afterSp.takeWhile Char.isDigit
        if ds.length = 0 then none
        else some (ds, afterSp.dropWhile Char.isDigit)
    else none
  | _ => none

/-- Model of `line.match(/^шаг\s+(\d+)\s*:\s*(.+)$/i)`, returning the
second capture group.  After the colon, the greedy `\s*` eats the maximal
whitespace run; `(.+)$` then needs a nonempty remainder free of line
terminators.  When the whole tail is whitespace, `\s*` backtracks by one
character, so the capture is the last character of the tail provided it is
not a line terminator. -/
def matchStepLine (line : String) : Option String :=
  match matchStepMention line.data with
  | none => none
  | some (_, afterDs) =>
    match afterDs.dropWhile isSpaceChar with
    | ':' :: r5 =>
      let r6 := r5.dropWhile isSpaceChar
      if r6.length = 0 then
        match r5.getLast? with
        | none => none
        | some c => if isLineTerm c then none else some (String.mk [c])
      else if r6.any isLineTerm then none
      else some (String.mk r6)
    | _ => none

/-- The per-line step extraction of the Pt variant (`generateFlowchart`
and `handleSendMessage` in the first part of `src/unnamed/part_000`):
when the regex matches, push `match[2].trim()`.  The capture of `(.+)` is
never empty, so the `match && match[2]` truthiness test always passes on a
match. -/
def extractStep (line : String) : Option String :=
  (matchStepLine line).map jsTrim

/-- The full step-line extraction of the Pt variant: split the response
into lines, trim them, drop the empty ones, and collect the trimmed second
capture of every line matching the step regex. -/
def extractStepLines (responseText : String) : List String :=
  (((splitOnChar '\x0a' responseText).map jsTrim).filter
      (fun l => 0 < l.length)).filterMap extractStep

/-- The `while ((match = stepRegex.exec(text)) !== null)` loop of the App
variant `handleSendMessage` over the global regex `/Шаг\s+(\d+)/gi`:
scan the text, and at every match push the string `Шаг <digits>` rebuilt
from the first capture, resuming after the match.  The fuel is the length
of the scanned text; every iteration consumes at least one character, so
the scan always completes within it (the fuel only makes the recursion
structural so that it evaluates inside the kernel). -/
def stepMentionScanFuel : Nat → List Char → List String
  | 0, _ => []
  | _, [] => []
  | fuel + 1, c :: cs =>
    match matchStepMention (c :: cs) with
    | some p => ("Шаг " ++ String.mk p.1) :: stepMentionScanFuel fuel p.2
    | none => stepMentionScanFuel fuel cs

/-- The user-step scan of the App variant `handleSendMessage`
(`src/src/App.tsx`, the `stepRegex` loop): every mention of the step word
followed by digits yields the step label `Шаг <digits>`. -/
def appUserStepScan (userInputText : String) : List String :=
  stepMentionScanFuel userInputText.data.length userInputText.data

/-- The destructuring `const [nodeText, rightText] = line.split(sep).map(trim)`
of the Svg variant structure builder: the first two trimmed segments, the
second being empty (falsy, like the JS `undefined`) when the split has a
single segment. -/
def splitTwoTrim (c : Char) (s : String) : String × String :=
  match (splitOnChar c s).map jsTrim with
  | [] => ("", "")
  | [a] => (a, "")
  | a :: b :: _ => (a, b)

/-- One loop iteration of the structure builder in the Svg variant
fallback: skip blank lines; a line containing a dash not at position zero
contributes a main/right pair when both halves are nonempty and nothing
otherwise; similarly for a vertical bar and a main/below pair; any other
line becomes a plain node. -/
def structLineNode (line : String) : Option StructNode :=
  let trimmedLine := jsTrim line
  if trimmedLine.length = 0 then none
  else if strContains trimmedLine '-' && !(lineStartsWith '-' trimmedLine) then
    let p := splitTwoTrim '-' trimmedLine
    if p.1 ≠ "" ∧ p.2 ≠ "" then some { text := p.1, right := some p.2, below := none }
    else none
  else if strContains trimmedLine '|' && !(lineStartsWith '|' trimmedLine) then
    let p := splitTwoTrim '|' trimmedLine
    if p.1 ≠ "" ∧ p.2 ≠ "" then some { text := p.1, right := none, below := some p.2 }
    else none
  else some { text := trimmedLine, right := none, below := none }

/-- The line loop of the structure builder in the Svg variant fallback. -/
def buildStructureLines (input : String) : List StructNode :=
  (splitOnChar '\x0a' input).filterMap structLineNode

/-- What the Svg variant fallback does with the input: either render a
complex structure or render a list of steps with an orientation flag. -/
inductive FallbackOutcome where
  | complexStructure (structureList : List StructNode)
  | steps (fallbackSteps : List String) (isHorizontal : Bool)
deriving DecidableEq

/-- The plain-split cascade of the Svg variant fallback
(`src/unnamed/part_000`, second part of `generateFlowchart`): a dash split
first (horizontal only when it yields more than one segment), then — when
the dash split did not yield several segments — a period split if the
input contains a period, else a newline split, else a comma split; and if
the accumulated steps are empty, the whole trimmed input as a single
step. -/
def svgFallbackCascade (input : String) : List String × Bool :=
  let first :=
    if strContains input '-' then
      let d := splitTrimFilter '-' input
      if 1 < d.length then (d, true) else (d, false)
    else ([], false)
  let second :=
    if first.2 = false ∨ first.1.length ≤ 1 then
      if strContains input '.' then (splitTrimFilter '.' input, false)
      else if strContains input '\x0a' then (splitTrimFilter '\x0a' input, false)
      else if strContains input ',' then (splitTrimFilter ',' input, false)
      else (first.1, false)
    else first
  if second.1.length = 0 then ([jsTrim input], second.2) else second

/-- The whole catch-branch fallback of the Svg variant `generateFlowchart`:
an input containing a dash or a vertical bar is first handed to the
structure builder, and the complex renderer is used when it produces at
least one entry; otherwise the plain split cascade runs. -/
def svgFallback (input : String) : FallbackOutcome :=
  if strContains input '-' || strContains input '|' then
    let st := buildStructureLines input
    if 0 < st.length then .complexStructure st
    else .steps (svgFallbackCascade input).1 (svgFallbackCascade input).2
  else .steps (svgFallbackCascade input).1 (svgFallbackCascade input).2

/-- A concrete two-node diagram used to instantiate theorems with
hypotheses. -/
def fcW : Flowchart :=
  { nodes := [{ id := "node-0", x := 250, y := 50, label := "Шаг A" },
              { id := "node-1", x := 250, y := 200, label := "Шаг B" }],
    edges := [{ id := "edge-0-1", source := "node-0", target := "node-1" }] }

/-- A concrete component state with a nonempty chat history. -/
def chatStateW : AppState :=
  { nodes := [], edges := [],
    chatHistory := [{ role := .user, content := "привет" }],
    nextNodeId := 1 }

theorem isSpaceChar_eq_true_iff {c : Char} :
    isSpaceChar c = true ↔
      c = ' ' ∨ c = '\t' ∨ c = '\x0a' ∨ c = '\x0d' ∨ c = '\x0b' ∨ c = '\x0c' := by
  simp [isSpaceChar]
  tauto

theorem digit_not_space {c : Char} (h : c.isDigit = true) : isSpaceChar c = false := by
  cases hs : isSpaceChar c with
  | false => rfl
  | true =>
    rw [isSpaceChar_eq_true_iff] at hs
    rcases hs with rfl | rfl | rfl | rfl | rfl | rfl <;> exact absurd h (by decide)

theorem takeWhile_append_all {p : Char → Bool} {l1 l2 : List Char}
    (h : ∀ c ∈ l1, p c = true) :
    (l1 ++ l2).takeWhile p = l1 ++ l2.takeWhile p := by
  induction l1 with
  | nil => simp
  | cons a t ih =>
    have ha := h a (by simp)
    simp only [List.cons_append, List.takeWhile_cons, ha, if_true]
    rw [ih (fun c hc => h c (by simp [hc]))]

theorem dropWhile_append_all {p : Char → Bool} {l1 l2 : List Char}
    (h : ∀ c ∈ l1, p c = true) :
    (l1 ++ l2).dropWhile p = l2.dropWhile p := by
  induction l1 with
  | nil => simp
  | cons a t ih =>
    have ha := h a (by simp)
    simp only [List.cons_append, List.dropWhile_cons, ha, if_true]
    exact ih (fun c hc => h c (by simp [hc]))

theorem mem_of_mem_dropWhile {p : Char → Bool} {l : List Char} {c : Char}
    (h : c ∈ l.dropWhile p) : c ∈ l := by
  induction l with
  | nil => simp at h
  | cons a t ih =>
    rw [List.dropWhile_cons] at h
    by_cases hp : p a = true
    · rw [if_pos hp] at h
      exact List.mem_cons_of_mem _ (ih h)
    · rw [if_neg hp] at h
      exact h

theorem mem_of_getLast? {l : List Char} {c : Char} (h : l.getLast? = some c) : c ∈ l := by
  induction l with
  | nil => simp at h
  | cons a t ih =>
    cases t with
    | nil =>
      rw [List.getLast?_singleton] at h
      simp [Option.some.injEq] at h
      simp [h]
    | cons b u =>
      rw [List.getLast?_cons_cons] at h
      exact List.mem_cons_of_mem _ (ih h)

theorem trimChars_dropWhile (l : List Char) :
    trimChars (l.dropWhile isSpaceChar) = trimChars l := by
  unfold trimChars
  rw [List.dropWhile_idempotent]

theorem jsTrim_all_space {s : String} (h : ∀ c ∈ s.data, isSpaceChar c = true) :
    jsTrim s = "" := by
  unfold jsTrim trimChars
  rw [List.dropWhile_eq_nil_iff.mpr h]
  rfl

theorem natToDecAux_eq (fuel n : Nat) (h : n ≤ fuel) :
    natToDecAux fuel n = ((Nat.digits 10 n).map Nat.digitChar).reverse := by
  induction fuel generalizing n with
  | zero =>
    have : n = 0 := by omega
    subst this
    simp [natToDecAux]
  | succ f ih =>
    cases n with
    | zero => simp [natToDecAux]
    | succ m =>
      have hdiv : (m + 1) / 10 < m + 1 := Nat.div_lt_self (Nat.succ_pos m) (by norm_num)
      rw [show natToDecAux (f + 1) (m + 1)
            = natToDecAux f ((m + 1) / 10) ++ [Nat.digitChar ((m + 1) % 10)] from rfl,
          ih ((m + 1) / 10) (by omega),
          Nat.digits_def' (b := 10) (by norm_num) (Nat.succ_pos m)]
      simp

theorem natToDec_eq (n : Nat) :
    natToDec n =
      if n = 0 then "0" else String.mk (((Nat.digits 10 n).map Nat.digitChar).reverse) := by
  unfold natToDec
  rw [natToDecAux_eq n n le_rfl]

theorem digitChar_inj_lt : ∀ a < 10, ∀ b < 10, Nat.digitChar a = Nat.digitChar b → a = b := by
  decide

theorem map_digitChar_inj :
    ∀ {l1 l2 : List Nat}, (∀ x ∈ l1, x < 10) → (∀ x ∈ l2, x < 10) →
      l1.map Nat.digitChar = l2.map Nat.digitChar → l1 = l2 := by
  intro l1
  induction l1 with
  | nil =>
    intro l2 _ _ h
    cases l2 with
    | nil => rfl
    | cons b u => simp at h
  | cons a t ih =>
    intro l2 h1 h2 h
    cases l2 with
    | nil => simp at h
    | cons b u =>
      simp only [List.map_cons, List.cons.injEq] at h
      have hab := digitChar_inj_lt a (h1 a (by simp)) b (h2 b (by simp)) h.1
      subst hab
      rw [ih (fun x hx => h1 x (by simp [hx])) (fun x hx => h2 x (by simp [hx])) h.2]

theorem digits_ne_zero_singleton {n : Nat} (hn : n ≠ 0) :
    Nat.digits 10 n ≠ [0] := by
  intro hd
  have := congrArg (Nat.ofDigits 10) hd
  rw [Nat.ofDigits_digits, Nat.ofDigits_singleton] at this
  exact hn this

theorem natToDec_injective : Function.Injective natToDec := by
  intro m n h
  rw [natToDec_eq, natToDec_eq] at h
  by_cases hm : m = 0 <;> by_cases hn : n = 0
  · omega
  · exfalso
    rw [if_pos hm, if_neg hn] at h
    have hd := congrArg String.data h
    have hd2 : (['0'] : List Char) = ((Nat.digits 10 n).map Nat.digitChar).reverse := hd
    rw [eq_comm, List.reverse_eq_iff] at hd2
    have : Nat.digits 10 n = [0] := by
      apply map_digitChar_inj (fun x hx => Nat.digits_lt_base (by norm_num) hx)
        (by intro x hx; simp at hx; omega)
      simpa using hd2
    exact digits_ne_zero_singleton hn this
  · exfalso
    rw [if_neg hm, if_pos hn] at h
    have hd := congrArg String.data h.symm
    have hd2 : (['0'] : List Char) = ((Nat.digits 10 m).map Nat.digitChar).reverse := hd
    rw [eq_comm, List.reverse_eq_iff] at hd2
    have : Nat.digits 10 m = [0] := by
      apply map_digitChar_inj (fun x hx => Nat.digits_lt_base (by norm_num) hx)
        (by intro x hx; simp at hx; omega)
      simpa using hd2
    exact digits_ne_zero_singleton hm this
  · rw [if_neg hm, if_neg hn] at h
    have hd := congrArg String.data h
    rw [List.reverse_eq_iff, List.reverse_reverse] at hd
    have := map_digitChar_inj (fun x hx => Nat.digits_lt_base (by norm_num) hx)
      (fun x hx => Nat.digits_lt_base (by norm_num) hx) hd
    exact Nat.digits.injective 10 this

theorem mkNodeId_injective : Function.Injective mkNodeId := by
  intro a b h
  unfold mkNodeId at h
  have hd := congrArg String.data h
  rw [String.data_append, String.data_append] at hd
  exact natToDec_injective (String.ext (List.append_cancel_left hd))

theorem buildFlowApp_nodes_id (isH : Bool) (l : List String) :
    ∀ i, ((buildFlowApp isH i l).1).map (fun n => n.id)
      = (List.range' i l.length).map mkNodeId := by
  induction l with
  | nil => intro i; rfl
  | cons s rest ih =>
    intro i
    simp only [buildFlowApp, List.length_cons, List.range'_succ, List.map_cons]
    rw [ih (i + 1)]

theorem buildFlowApp_nodes_label (isH : Bool) (l : List String) :
    ∀ i, ((buildFlowApp isH i l).1).map (fun n => n.label) = l := by
  induction l with
  | nil => intro i; rfl
  | cons s rest ih =>
    intro i
    simp only [buildFlowApp, List.map_cons]
    rw [ih (i + 1)]

theorem buildFlowApp_nodes_pos (isH : Bool) (l : List String) :
    ∀ i, ((buildFlowApp isH i l).1).map (fun n => (n.x, n.y))
      = (List.range' i l.length).map
          (fun j => (if isH then j * (200 + 100) + 100 else 250,
                     if isH then 100 else j * (80 + 100) + 50)) := by
  induction l with
  | nil => intro i; rfl
  | cons s rest ih =>
    intro i
    simp only [buildFlowApp, List.length_cons, List.range'_succ, List.map_cons]
    rw [ih (i + 1)]

theorem buildFlowApp_edges_aux (isH : Bool) (l : List String) :
    ∀ i, (buildFlowApp isH (i + 1) l).2 = (List.range' i l.length).map mkSeqEdge := by
  induction l with
  | nil => intro i; rfl
  | cons s rest ih =>
    intro i
    simp only [buildFlowApp, List.length_cons, List.range'_succ, List.map_cons]
    rw [if_pos (Nat.succ_pos i)]
    simp only [Nat.add_sub_cancel, List.singleton_append, List.cons.injEq]
    exact ⟨trivial, ih (i + 1)⟩

theorem buildFlowApp_edges_eq (isH : Bool) (l : List String) :
    (buildFlowApp isH 0 l).2 = (List.range (l.length - 1)).map mkSeqEdge := by
  cases l with
  | nil => rfl
  | cons s rest =>
    simp only [buildFlowApp, List.length_cons, Nat.add_sub_cancel]
    rw [if_neg (by omega), List.nil_append, List.range_eq_range']
    exact buildFlowApp_edges_aux isH rest 0

theorem buildNodesPt_id (isH : Bool) (l : List String) :
    ∀ i, (buildNodesPt isH i l).map (fun n => n.id)
      = (List.range' i l.length).map mkNodeId := by
  induction l with
  | nil => intro i; rfl
  | cons s rest ih =>
    intro i
    simp only [buildNodesPt, List.length_cons, List.range'_succ, List.map_cons]
    rw [ih (i + 1)]

theorem buildNodesPt_label (isH : Bool) (l : List String) :
    ∀ i, (buildNodesPt isH i l).map (fun n => n.label) = l := by
  induction l with
  | nil => intro i; rfl
  | cons s rest ih =>
    intro i
    simp only [buildNodesPt, List.map_cons]
    rw [ih (i + 1)]

theorem buildNodesPt_pos (isH : Bool) (l : List String) :
    ∀ i, (buildNodesPt isH i l).map (fun n => (n.x, n.y))
      = (List.range' i l.length).map
          (fun j => (if isH then j * (180 + 80) + 100 else 250,
                     if isH then 100 else j * (70 + 80) + 50)) := by
  induction l with
  | nil => intro i; rfl
  | cons s rest ih =>
    intro i
    simp only [buildNodesPt, List.length_cons, List.range'_succ, List.map_cons]
    rw [ih (i + 1)]

theorem countP_seqEdges (k : Nat) :
    ∀ m, ((List.range m).map mkSeqEdge).countP
        (fun e => e.source == mkNodeId k && e.target == mkNodeId (k + 1))
      = if k < m then 1 else 0 := by
  intro m
  induction m with
  | zero => simp
  | succ m ih =>
    rw [List.range_succ, List.map_append, List.countP_append, ih]
    have hcnt : ([mkSeqEdge m].countP
        (fun e => e.source == mkNodeId k && e.target == mkNodeId (k + 1)))
        = if m = k then 1 else 0 := by
      by_cases hmk : m = k
      · subst hmk
        simp [List.countP_cons, mkSeqEdge]
      · have hne : mkNodeId m ≠ mkNodeId k := fun hc => hmk (mkNodeId_injective hc)
        have hbf : (mkNodeId m == mkNodeId k) = false := beq_eq_false_iff_ne.mpr hne
        simp [List.countP_cons, mkSeqEdge, hbf, hmk]
    rw [List.map_cons, List.map_nil, hcnt]
    split_ifs <;> omega

theorem consecEdges_endpoints (l : List FlowNode) :
    ∀ i, ∀ e ∈ consecEdges i l,
      (∃ n ∈ l, n.id = e.source) ∧ (∃ n ∈ l, n.id = e.target) := by
  induction l with
  | nil => intro i e he; simp [consecEdges] at he
  | cons a rest ih =>
    intro i e he
    cases rest with
    | nil => simp [consecEdges] at he
    | cons b u =>
      simp only [consecEdges] at he
      rcases List.mem_cons.mp he with rfl | hmem
      · exact ⟨⟨a, by simp, rfl⟩, ⟨b, by simp, rfl⟩⟩
      · obtain ⟨⟨n1, hn1, hid1⟩, ⟨n2, hn2, hid2⟩⟩ := ih (i + 1) e hmem
        exact ⟨⟨n1, List.mem_cons_of_mem _ hn1, hid1⟩,
               ⟨n2, List.mem_cons_of_mem _ hn2, hid2⟩⟩

theorem complexMainId_mem_entry (i : Nat) (sn : StructNode) :
    complexMainId i ∈ (complexEntryNodes i sn).map (fun n => n.id) := by
  simp [complexEntryNodes]

theorem complexEntryEdges_cases (i : Nat) (sn : StructNode) :
    ∀ e ∈ complexEntryEdges i sn,
      (e.source = complexMainId i
        ∧ e.target ∈ (complexEntryNodes i sn).map (fun n => n.id))
      ∨ (0 < i ∧ e.source = complexMainId (i - 1) ∧ e.target = complexMainId i) := by
  intro e he
  rw [complexEntryEdges, List.mem_append, List.mem_append] at he
  rcases he with (heR | heB) | heC
  · cases hrw : sn.right with
    | none => rw [hrw] at heR; simp at heR
    | some r =>
      rw [hrw] at heR
      simp only [List.mem_singleton] at heR
      subst heR
      exact Or.inl ⟨rfl, by simp [complexEntryNodes, hrw]⟩
  · cases hbw : sn.below with
    | none => rw [hbw] at heB; simp at heB
    | some b =>
      rw [hbw] at heB
      simp only [List.mem_singleton] at heB
      subst heB
      exact Or.inl ⟨rfl, by simp [complexEntryNodes, hbw]⟩
  · by_cases hi : 0 < i
    · rw [if_pos hi] at heC
      simp only [List.mem_singleton] at heC
      subst heC
      exact Or.inr ⟨hi, rfl, rfl⟩
    · rw [if_neg hi] at heC
      simp at heC

theorem complexBuild_edges_endpoints (st : List StructNode) :
    ∀ i, ∀ e ∈ (complexBuild i st).2,
      (e.target ∈ (complexBuild i st).1.map (fun n => n.id))
      ∧ (e.source ∈ (complexBuild i st).1.map (fun n => n.id)
         ∨ (0 < i ∧ e.source = complexMainId (i - 1))) := by
  induction st with
  | nil => intro i e he; simp [complexBuild] at he
  | cons sn rest ih =>
    intro i e he
    have hnodes : (complexBuild i (sn :: rest)).1
        = complexEntryNodes i sn ++ (complexBuild (i + 1) rest).1 := by
      simp [complexBuild]
    have hedges : (complexBuild i (sn :: rest)).2
        = complexEntryEdges i sn ++ (complexBuild (i + 1) rest).2 := by
      simp [complexBuild]
    rw [hedges, List.mem_append] at he
    rw [hnodes]
    rcases he with he | he
    · rcases complexEntryEdges_cases i sn e he with ⟨hs, ht⟩ | ⟨hi, hs, ht⟩
      · refine ⟨?_, Or.inl ?_⟩
        · rw [List.map_append, List.mem_append]
          exact Or.inl ht
        · rw [List.map_append, List.mem_append, hs]
          exact Or.inl (complexMainId_mem_entry i sn)
      · refine ⟨?_, Or.inr ⟨hi, hs⟩⟩
        rw [List.map_append, List.mem_append, ht]
        exact Or.inl (complexMainId_mem_entry i sn)
    · obtain ⟨ht, hs⟩ := ih (i + 1) e he
      refine ⟨?_, ?_⟩
      · rw [List.map_append, List.mem_append]
        exact Or.inr ht
      · left
        rw [List.map_append, List.mem_append]
        rcases hs with hs | ⟨_, hs⟩
        · exact Or.inr hs
        · left
          rw [show i + 1 - 1 = i from rfl] at hs
          rw [hs]
          exact complexMainId_mem_entry i sn

theorem matchStepMention_canonical (c1 c2 c3 d : Char) (ds' : List Char) (tail : List Char)
    (h1 : isShagSh c1 = true) (h2 : isShagA c2 = true) (h3 : isShagG c3 = true)
    (hdig : ∀ c ∈ d :: ds', c.isDigit = true)
    (htail : tail.takeWhile Char.isDigit = []) :
    matchStepMention (c1 :: c2 :: c3 :: ' ' :: ((d :: ds') ++ tail))
      = some (d :: ds', tail.dropWhile Char.isDigit) := by
  have hdsp : isSpaceChar d = false := digit_not_space (hdig d (by simp))
  have hspace : isSpaceChar ' ' = true := by decide
  have htw0 : ((' ' :: ((d :: ds') ++ tail)).takeWhile isSpaceChar) = [' '] := by
    rw [List.takeWhile_cons, if_pos hspace, List.cons_append, List.takeWhile_cons,
      if_neg (by simp [hdsp])]
  have hdw0 : ((' ' :: ((d :: ds') ++ tail)).dropWhile isSpaceChar)
      = (d :: ds') ++ tail := by
    rw [List.dropWhile_cons, if_pos hspace, List.cons_append, List.dropWhile_cons,
      if_neg (by simp [hdsp])]
  have htkd : (((d :: ds') ++ tail).takeWhile Char.isDigit) = d :: ds' := by
    rw [takeWhile_append_all hdig, htail, List.append_nil]
  have hdrd : (((d :: ds') ++ tail).dropWhile Char.isDigit)
      = tail.dropWhile Char.isDigit :=
    dropWhile_append_all hdig
  simp only [matchStepMention, h1, h2, h3, Bool.and_self, if_true, htw0, hdw0,
    htkd, hdrd, List.length_cons, List.length_nil]
  simp

theorem extractStep_step_line (c1 c2 c3 : Char) (ds : List Char) (text : String)
    (h1 : isShagSh c1 = true) (h2 : isShagA c2 = true) (h3 : isShagG c3 = true)
    (hds : ds ≠ []) (hdig : ∀ c ∈ ds, c.isDigit = true)
    (hterm : ∀ c ∈ text.data, isLineTerm c = false) :
    extractStep (String.mk (c1 :: c2 :: c3 :: ' ' :: (ds ++ ':' :: ' ' :: text.data)))
      = some (jsTrim text) := by
  obtain ⟨d, ds', rfl⟩ : ∃ d ds', ds = d :: ds' := by
    cases ds with
    | nil => exact absurd rfl hds
    | cons d ds' => exact ⟨d, ds', rfl⟩
  have hspace : isSpaceChar ' ' = true := by decide
  have hmm := matchStepMention_canonical c1 c2 c3 d ds' (':' :: ' ' :: text.data)
    h1 h2 h3 hdig
    (by rw [List.takeWhile_cons, if_neg (by decide)])
  rw [show ((':' :: ' ' :: text.data).dropWhile Char.isDigit) = ':' :: ' ' :: text.data
      from by rw [List.dropWhile_cons, if_neg (by decide)]] at hmm
  have hdata : (String.mk (c1 :: c2 :: c3 :: ' ' :: ((d :: ds') ++ ':' :: ' ' :: text.data))).data
      = c1 :: c2 :: c3 :: ' ' :: ((d :: ds') ++ ':' :: ' ' :: text.data) := rfl
  have hdc : ((' ' :: text.data).dropWhile isSpaceChar)
      = text.data.dropWhile isSpaceChar := by
    rw [List.dropWhile_cons, if_pos hspace]
  simp only [extractStep, matchStepLine, hdata, hmm]
  rw [show ((':' :: ' ' :: text.data).dropWhile isSpaceChar) = ':' :: ' ' :: text.data
    from by rw [List.dropWhile_cons, if_neg (by decide)]]
  simp only [hdc]
  by_cases hr6 : text.data.dropWhile isSpaceChar = []
  · have hall : ∀ c ∈ text.data, isSpaceChar c = true := List.dropWhile_eq_nil_iff.mp hr6
    have htext0 : jsTrim text = "" := jsTrim_all_space hall
    rw [hr6, if_pos (show ([] : List Char).length = 0 from rfl)]
    cases htd : text.data with
    | nil =>
      simp only [List.getLast?_singleton]
      rw [show isLineTerm ' ' = false from by decide]
      simp only [Bool.false_eq_true, if_false, Option.map_some']
      rw [htext0]
      decide
    | cons t ts =>
      have hne : (t :: ts : List Char) ≠ [] := by simp
      have hcmem : (t :: ts).getLast hne ∈ text.data := by
        rw [htd]
        exact List.getLast_mem hne
      have hlt : isLineTerm ((t :: ts).getLast hne) = false := hterm _ hcmem
      simp only [List.getLast?_cons_cons, List.getLast?_eq_getLast _ hne, hlt,
        Bool.false_eq_true, if_false, Option.map_some']
      rw [htext0]
      congr 1
      refine jsTrim_all_space ?_
      intro c hc
      simp only [List.mem_singleton] at hc
      subst hc
      exact hall _ hcmem
  · have hlen : (text.data.dropWhile isSpaceChar).length ≠ 0 := by
      simpa [List.length_eq_zero] using hr6
    rw [if_neg hlen]
    have hany : (text.data.dropWhile isSpaceChar).any isLineTerm = false := by
      rw [List.any_eq_false]
      intro c hc
      simp [hterm c (mem_of_mem_dropWhile hc)]
    rw [hany]
    simp only [Bool.false_eq_true, if_false, Option.map_some']
    congr 1
    show jsTrim (String.mk (text.data.dropWhile isSpaceChar)) = jsTrim text
    unfold jsTrim
    rw [show (String.mk (text.data.dropWhile isSpaceChar)).data
        = text.data.dropWhile isSpaceChar from rfl]
    rw [trimChars_dropWhile]

/-- Claim C5: for every node id and every diagram state, `deleteNode`
removes exactly the node with that id and every edge whose source or
target equals that id; every other node and edge survives, in order. -/
theorem c5_delete_node (nodeId : String) (fc : Flowchart) (n : FlowNode) (e : FlowEdge) :
    (n ∈ (deleteNode nodeId fc).nodes ↔ n ∈ fc.nodes ∧ n.id ≠ nodeId)
    ∧ (e ∈ (deleteNode nodeId fc).edges
        ↔ e ∈ fc.edges ∧ e.source ≠ nodeId ∧ e.target ≠ nodeId)
    ∧ (deleteNode nodeId fc).nodes.Sublist fc.nodes
    ∧ (deleteNode nodeId fc).edges.Sublist fc.edges := by
  refine ⟨?_, ?_, List.filter_sublist _, List.filter_sublist _⟩
  · simp [deleteNode, List.mem_filter, bne_iff_ne]
  · simp [deleteNode, List.mem_filter, Bool.and_eq_true, bne_iff_ne, and_assoc]

/-- Claim C7 (amended): a generation request replaces the nodes, edges and
node counter wholesale — the result does not depend on the previous
diagram state — but the chat history is left untouched, not cleared. -/
theorem c7_generation_resets (steps : List String) (isH : Bool) (st st' : AppState) :
    (applyGenerateFlowFromStepsApp steps isH st).nodes
      = (applyGenerateFlowFromStepsApp steps isH st').nodes
    ∧ (applyGenerateFlowFromStepsApp steps isH st).edges
      = (applyGenerateFlowFromStepsApp steps isH st').edges
    ∧ (applyGenerateFlowFromStepsApp steps isH st).nextNodeId
      = (applyGenerateFlowFromStepsApp steps isH st').nextNodeId
    ∧ (applyGenerateFlowFromStepsApp steps isH st).chatHistory = st.chatHistory := by
  simp [applyGenerateFlowFromStepsApp]

/-- Counterexample to claim C7 as stated: a generation request run from a
state with a nonempty chat history leaves that history exactly as it was,
so the chat history is not cleared on a new generation request. -/
theorem c7_counterexample :
    chatStateW.chatHistory ≠ []
    ∧ (applyGenerateFlowFromStepsApp ["проверить почту"] false chatStateW).chatHistory
        = chatStateW.chatHistory :=
  ⟨by decide, by decide⟩

/-- Claim C8: the chat transcript is append-only: every run of the chat
handler in both ReactFlow variants keeps the previous history as an
unchanged prefix and appends exactly two messages, a user one and an
assistant one, whichever branch is taken. -/
theorem c8_chat_append_only (history : List ChatMessage) (chatInput : String)
    (orientationShortcut isHorizontal : Bool) (out : ModelOutcome) :
    ((appChatHistoryAfter history chatInput orientationShortcut isHorizontal out).take
        history.length = history
      ∧ (appChatHistoryAfter history chatInput orientationShortcut isHorizontal out).length
        = history.length + 2
      ∧ ((appChatHistoryAfter history chatInput orientationShortcut isHorizontal out).drop
          history.length).map (fun m => m.role) = [ChatRole.user, ChatRole.assistant])
    ∧ ((ptChatHistoryAfter history chatInput out).take history.length = history
      ∧ (ptChatHistoryAfter history chatInput out).length = history.length + 2
      ∧ ((ptChatHistoryAfter history chatInput out).drop history.length).map
          (fun m => m.role) = [ChatRole.user, ChatRole.assistant]) := by
  have happ : ∀ u a : ChatMessage,
      ((history ++ [u]) ++ [a]).take history.length = history
      ∧ ((history ++ [u]) ++ [a]).length = history.length + 2
      ∧ (((history ++ [u]) ++ [a]).drop history.length).map (fun m => m.role)
        = [u.role, a.role] := by
    intro u a
    rw [List.append_assoc, List.singleton_append]
    exact ⟨List.take_left history [u, a], by simp, by rw [List.drop_left]; rfl⟩
  constructor
  · by_cases hos : orientationShortcut = true
    · simp only [appChatHistoryAfter, if_pos hos]
      exact happ _ _
    · simp only [appChatHistoryAfter, if_neg hos]
      cases out with
      | ok t => exact happ _ _
      | err => exact happ _ _
  · cases out with
    | ok t => exact happ _ _
    | err => exact happ _ _

/-- Claim C4 (amended): in both ReactFlow variants the sequential layout
places node `i` on a fixed cross coordinate with the other coordinate a
linear function of `i`, but the two orientations use different constants:
vertically x is fixed at 250 and y = i·(nodeHeight+gap)+50, horizontally
y is fixed at 100 and x = i·(nodeWidth+gap)+100, with
(nodeWidth, nodeHeight, gap) = (200, 80, 100) in the App variant and
(180, 70, 80) in the Pt variant. -/
theorem c4_sequential_layout (steps : List String) (isH : Bool) :
    ((generateFlowFromStepsApp steps isH).nodes.map (fun n => (n.x, n.y))
      = (List.range (processSteps steps).length).map
          (fun i => if isH then (i * (200 + 100) + 100, 100)
                    else (250, i * (80 + 100) + 50)))
    ∧ ((generateFlowFromStepsPt steps isH).nodes.map (fun n => (n.x, n.y))
      = (List.range (processSteps steps).length).map
          (fun i => if isH then (i * (180 + 80) + 100, 100)
                    else (250, i * (70 + 80) + 50))) := by
  have h1 : (generateFlowFromStepsApp steps isH).nodes
      = (buildFlowApp isH 0 (processSteps steps)).1 := rfl
  have h2 : (generateFlowFromStepsPt steps isH).nodes
      = buildNodesPt isH 0 (processSteps steps) := rfl
  rw [h1, h2, buildFlowApp_nodes_pos, buildNodesPt_pos, ← List.range_eq_range']
  cases isH <;> simp

/-- Counterexample to claim C4 as stated: on the steps `a`, `b` in the App
variant, swapping the axes of the vertical layout would place the nodes at
(50, 250) and (230, 250), but the horizontal layout actually places them
at (100, 100) and (400, 100): the horizontal constants are not those of
the vertical layout mirrored. -/
theorem c4_counterexample :
    ((generateFlowFromStepsApp ["a", "b"] false).nodes.map (fun n => (n.y, n.x))
      = [(50, 250), (230, 250)])
    ∧ ((generateFlowFromStepsApp ["a", "b"] true).nodes.map (fun n => (n.x, n.y))
      = [(100, 100), (400, 100)])
    ∧ ([((50 : Nat), (250 : Nat)), (230, 250)] ≠ [((100 : Nat), (100 : Nat)), (400, 100)]) :=
  ⟨by decide, by decide, by decide⟩

/-- Claim C10: `generateFlowFromSteps` first strips the mermaid and
markdown markers and trims every step, dropping the steps that became
empty; the node labels are exactly those processed steps (hence nonempty),
the node ids are the distinct `node-<index>` strings for indices 0, 1, …,
and the next-node-id counter becomes the number of created nodes plus
one — in both ReactFlow variants. -/
theorem c10_node_invariants (steps : List String) (isH : Bool) :
    ((generateFlowFromStepsApp steps isH).nodes.map (fun n => n.label) = processSteps steps
      ∧ (generateFlowFromStepsPt steps isH).nodes.map (fun n => n.label) = processSteps steps)
    ∧ (processSteps steps).all (fun s => 0 < s.length) = true
    ∧ ((generateFlowFromStepsApp steps isH).nodes.map (fun n => n.id)
        = (List.range (processSteps steps).length).map mkNodeId
      ∧ (generateFlowFromStepsPt steps isH).nodes.map (fun n => n.id)
        = (List.range (processSteps steps).length).map mkNodeId)
    ∧ ((generateFlowFromStepsApp steps isH).nodes.map (fun n => n.id)).Nodup
    ∧ ((generateFlowFromStepsApp steps isH).nextNodeId = (processSteps steps).length + 1
      ∧ (generateFlowFromStepsPt steps isH).nextNodeId = (processSteps steps).length + 1) := by
  have hida : (generateFlowFromStepsApp steps isH).nodes.map (fun n => n.id)
      = (List.range (processSteps steps).length).map mkNodeId := by
    rw [show (generateFlowFromStepsApp steps isH).nodes
        = (buildFlowApp isH 0 (processSteps steps)).1 from rfl,
      buildFlowApp_nodes_id, ← List.range_eq_range']
  refine ⟨⟨?_, ?_⟩, ?_, ⟨hida, ?_⟩, ?_, rfl, rfl⟩
  · exact buildFlowApp_nodes_label isH (processSteps steps) 0
  · exact buildNodesPt_label isH (processSteps steps) 0
  · rw [List.all_eq_true]
    intro x hx
    exact (List.mem_filter.mp hx).2
  · rw [show (generateFlowFromStepsPt steps isH).nodes
        = buildNodesPt isH 0 (processSteps steps) from rfl,
      buildNodesPt_id, ← List.range_eq_range']
  · rw [hida]
    exact List.Nodup.map mkNodeId_injective (List.nodup_range _)

/-- Claim C3 (amended): with P the number of steps surviving the
marker-stripping of `generateFlowFromSteps`, both ReactFlow variants
produce exactly P-1 edges, and for every i < P-1 exactly one edge runs
from `node-<i>` to `node-<i+1>`. -/
theorem c3_sequential_edges (steps : List String) (isH : Bool) :
    ((generateFlowFromStepsApp steps isH).edges.length = (processSteps steps).length - 1
      ∧ (generateFlowFromStepsPt steps isH).edges.length = (processSteps steps).length - 1)
    ∧ (∀ i : Nat, i + 1 < (processSteps steps).length →
        ((generateFlowFromStepsApp steps isH).edges.countP
            (fun e => e.source == mkNodeId i && e.target == mkNodeId (i + 1)) = 1
          ∧ (generateFlowFromStepsPt steps isH).edges.countP
            (fun e => e.source == mkNodeId i && e.target == mkNodeId (i + 1)) = 1)) := by
  have happ : (generateFlowFromStepsApp steps isH).edges
      = (List.range ((processSteps steps).length - 1)).map mkSeqEdge :=
    buildFlowApp_edges_eq isH (processSteps steps)
  have hpt : (generateFlowFromStepsPt steps isH).edges
      = (List.range ((processSteps steps).length - 1)).map mkSeqEdge := rfl
  refine ⟨⟨?_, ?_⟩, ?_⟩
  · rw [happ]; simp
  · rw [hpt]; simp
  · intro i hi
    have hcount := countP_seqEdges i ((processSteps steps).length - 1)
    rw [if_pos (by omega)] at hcount
    exact ⟨by rw [happ]; exact hcount, by rw [hpt]; exact hcount⟩

/-- Witness for claim C3: on the two-step list `вода`, `чай` there is
exactly one edge from `node-0` to `node-1`. -/
theorem c3_sequential_edges_witness :
    0 + 1 < (processSteps ["вода", "чай"]).length
    ∧ (generateFlowFromStepsApp ["вода", "чай"] false).edges.countP
        (fun e => e.source == mkNodeId 0 && e.target == mkNodeId (0 + 1)) = 1 :=
  ⟨by decide, ((c3_sequential_edges ["вода", "чай"] false).2 0 (by decide)).1⟩

/-- Counterexample to claim C3 as stated: the two-element step list
`a`, <three backticks> produces zero edges, not N-1 = 1, because the
second step is erased by the marker stripping. -/
theorem c3_counterexample :
    (["a", "\x60\x60\x60"] : List String).length = 2
    ∧ (generateFlowFromStepsApp ["a", "\x60\x60\x60"] false).edges.length = 0
    ∧ ¬((0 : Nat) = 2 - 1) :=
  ⟨by decide, by decide, by decide⟩

/-- Claim C9 (amended): for an input whose trimmed length is between 1 and
4, the generate-flowchart handlers perform no model call, report no error
and build the flowchart from the single step `[input.trim()]`: no edges,
and exactly one node labelled with the cleaned trimmed input when the
marker stripping leaves it nonempty — and no node at all otherwise. -/
theorem c9_short_input (input : String)
    (h1 : 1 ≤ (jsTrim input).length) (h2 : (jsTrim input).length < 5) :
    (generateFlowchartShortApp input).2 = ""
    ∧ (generateFlowchartShortApp input).1.edges = []
    ∧ (generateFlowchartShortApp input).1.nodes.map (fun n => (n.id, n.label))
        = (if 0 < (cleanStep (jsTrim input)).length
           then [(mkNodeId 0, cleanStep (jsTrim input))] else [])
    ∧ (generateFlowFromStepsPt [jsTrim input] false).edges = []
    ∧ (generateFlowFromStepsPt [jsTrim input] false).nodes.map (fun n => (n.id, n.label))
        = (if 0 < (cleanStep (jsTrim input)).length
           then [(mkNodeId 0, cleanStep (jsTrim input))] else []) := by
  have hna : (generateFlowchartShortApp input).1.nodes
      = (buildFlowApp false 0 (processSteps [jsTrim input])).1 := rfl
  have hea : (generateFlowchartShortApp input).1.edges
      = (List.range ((processSteps [jsTrim input]).length - 1)).map mkSeqEdge :=
    buildFlowApp_edges_eq false (processSteps [jsTrim input])
  have hnp : (generateFlowFromStepsPt [jsTrim input] false).nodes
      = buildNodesPt false 0 (processSteps [jsTrim input]) := rfl
  have hep : (generateFlowFromStepsPt [jsTrim input] false).edges
      = (List.range ((processSteps [jsTrim input]).length - 1)).map mkSeqEdge := rfl
  by_cases hc : 0 < (cleanStep (jsTrim input)).length
  · have hps : processSteps [jsTrim input] = [cleanStep (jsTrim input)] := by
      simp [processSteps, List.filter_cons, hc]
    refine ⟨rfl, ?_, ?_, ?_, ?_⟩
    · rw [hea, hps]; rfl
    · rw [hna, hps, if_pos hc]; rfl
    · rw [hep, hps]; rfl
    · rw [hnp, hps, if_pos hc]; rfl
  · have hps : processSteps [jsTrim input] = [] := by
      simp only [processSteps, List.map_cons, List.map_nil, List.filter_cons]
      rw [if_neg (by simpa using hc)]
      rfl
    refine ⟨rfl, ?_, ?_, ?_, ?_⟩
    · rw [hea, hps]; rfl
    · rw [hna, hps, if_neg hc]; rfl
    · rw [hep, hps]; rfl
    · rw [hnp, hps, if_neg hc]; rfl

/-- Witness for claim C9: the input `abc` has trimmed length 3 and
produces exactly the single node `node-0` labelled `abc`. -/
theorem c9_short_input_witness :
    1 ≤ (jsTrim "abc").length ∧ (jsTrim "abc").length < 5
    ∧ (generateFlowchartShortApp "abc").1.nodes.map (fun n => (n.id, n.label))
        = [("node-0", "abc")]
    ∧ (generateFlowchartShortApp "abc").1.edges = [] := by
  have h := c9_short_input "abc" (by decide) (by decide)
  exact ⟨by decide, by decide, h.2.2.1.trans (by decide), h.2.1⟩

/-- Counterexample to claim C9 as stated: an input of three backticks has
trimmed length 3, yet the generated flowchart has zero nodes instead of
one node labelled with the trimmed input, because the marker stripping of
`generateFlowFromSteps` erases the step. -/
theorem c9_counterexample :
    (jsTrim "\x60\x60\x60").length = 3
    ∧ (generateFlowchartShortApp "\x60\x60\x60").1.nodes = [] :=
  ⟨by decide, by decide⟩

/-- Claim C1 (amended): in the Pt variant, for every line of the form
`Шаг <N>: <text>` — the step word in any letter case, any digit string N,
and a text free of line terminators — the step extraction used by
`generateFlowchart` and `handleSendMessage` yields exactly `<text>` with
surrounding whitespace trimmed.  (The App variant chat handler instead
matches only `Шаг <N>` and never captures the text after the colon.) -/
theorem c1_step_extraction (c1 c2 c3 : Char) (ds : List Char) (text : String)
    (h1 : isShagSh c1 = true) (h2 : isShagA c2 = true) (h3 : isShagG c3 = true)
    (hds : ds ≠ []) (hdig : ∀ c ∈ ds, c.isDigit = true)
    (hterm : ∀ c ∈ text.data, isLineTerm c = false) :
    extractStep (String.mk (c1 :: c2 :: c3 :: ' ' :: (ds ++ ':' :: ' ' :: text.data)))
      = some (jsTrim text) :=
  extractStep_step_line c1 c2 c3 ds text h1 h2 h3 hds hdig hterm

/-- Witness for claim C1: the line `Шаг 1:  Вскипятить воду ` yields the
step label `Вскипятить воду`. -/
theorem c1_step_extraction_witness :
    isShagSh 'Ш' = true ∧ (['1'] : List Char) ≠ []
    ∧ (∀ c ∈ (" Вскипятить воду ".data), isLineTerm c = false)
    ∧ extractStep (String.mk
        ('Ш' :: 'а' :: 'г' :: ' ' :: (['1'] ++ ':' :: ' ' :: " Вскипятить воду ".data)))
      = some (jsTrim " Вскипятить воду ")
    ∧ jsTrim " Вскипятить воду " = "Вскипятить воду" :=
  ⟨by decide, by decide, by decide,
   c1_step_extraction 'Ш' 'а' 'г' ['1'] " Вскипятить воду " (by decide) (by decide)
     (by decide) (by decide) (by decide) (by decide),
   by decide⟩

/-- Counterexample to claim C1 as stated: the App variant chat handler
scans the user text with the interval regex for `Шаг <N>` only, so the
line `Шаг 1: проверить данные` — which matches the `Шаг <N>: <text>`
pattern — produces the step label `Шаг 1` and not the trimmed text
`проверить данные`. -/
theorem c1_counterexample :
    appUserStepScan "Шаг 1: проверить данные" = ["Шаг 1"]
    ∧ ("Шаг 1" : String) ≠ jsTrim "проверить данные" :=
  ⟨by decide, by decide⟩

/-- Claim C2 (amended): in the Svg variant, when the model call fails on
an input containing neither a dash nor a vertical bar (so the
complex-structure path is not taken), the fallback splitter tries, in
this order: a period split if the input contains a period, else a newline
split if it contains a newline, else a comma split if it contains a
comma; and when the chosen split yields no step — or no separator is
present — the whole trimmed input becomes the single step.  The split by
newline is not tried first. -/
theorem c2_fallback_order (input : String)
    (hd : strContains input '-' = false) (hp : strContains input '|' = false) :
    svgFallback input =
      FallbackOutcome.steps
        (let s :=
          if strContains input '.' = true then splitTrimFilter '.' input
          else if strContains input '\x0a' = true then splitTrimFilter '\x0a' input
          else if strContains input ',' = true then splitTrimFilter ',' input
          else []
         if s.length = 0 then [jsTrim input] else s)
        false := by
  have hcas : svgFallbackCascade input =
      (let s :=
        if strContains input '.' = true then splitTrimFilter '.' input
        else if strContains input '\x0a' = true then splitTrimFilter '\x0a' input
        else if strContains input ',' = true then splitTrimFilter ',' input
        else []
       if s.length = 0 then ([jsTrim input], false) else (s, false)) := by
    unfold svgFallbackCascade
    rw [hd]
    simp only [Bool.false_eq_true, if_false]
    rw [if_pos (Or.inl trivial)]
    split_ifs <;> rfl
  unfold svgFallback
  rw [hd, hp]
  simp only [Bool.false_eq_true, Bool.or_self, if_false]
  rw [hcas]
  split_ifs <;> simp_all

/-- Witness for claim C2: the input `налить воду. вскипятить` contains no
dash and no bar; it contains a period, so the period split runs and the
fallback yields the two steps, vertically. -/
theorem c2_fallback_order_witness :
    strContains "налить воду. вскипятить" '-' = false
    ∧ strContains "налить воду. вскипятить" '|' = false
    ∧ svgFallback "налить воду. вскипятить"
        = FallbackOutcome.steps ["налить воду", "вскипятить"] false := by
  refine ⟨by decide, by decide, ?_⟩
  have h := c2_fallback_order "налить воду. вскипятить" (by decide) (by decide)
  exact h.trans (by decide)

/-- Counterexample to claim C2 as stated: on the input `a.b<newline>c`
(no dash, no bar) the claimed newline-first order would produce the steps
`a.b` and `c`, but the code splits by period first and produces `a` and
`b<newline>c`. -/
theorem c2_counterexample :
    svgFallback "a.b\x0ac" = FallbackOutcome.steps ["a", "b\x0ac"] false
    ∧ splitTrimFilter '\x0a' "a.b\x0ac" = ["a.b", "c"]
    ∧ (["a", "b\x0ac"] : List String) ≠ ["a.b", "c"] :=
  ⟨by decide, by decide, by decide⟩

theorem edgesValid_of_seq (nodes : List FlowNode) (edges : List FlowEdge) (P : Nat)
    (hids : nodes.map (fun n => n.id) = (List.range P).map mkNodeId)
    (hedges : edges = (List.range (P - 1)).map mkSeqEdge) :
    edgesValid { nodes := nodes, edges := edges } = true := by
  rw [edgesValid, List.all_eq_true]
  intro e he
  rw [hedges, List.mem_map] at he
  obtain ⟨i, hi, rfl⟩ := he
  rw [List.mem_range] at hi
  have hmem : ∀ j, j < P → (nodes.any fun n => n.id == mkNodeId j) = true := by
    intro j hj
    rw [List.any_eq_true]
    have hj2 : mkNodeId j ∈ nodes.map (fun n => n.id) := by
      rw [hids, List.mem_map]
      exact ⟨j, List.mem_range.mpr hj, rfl⟩
    rw [List.mem_map] at hj2
    obtain ⟨n, hn, hni⟩ := hj2
    exact ⟨n, hn, beq_iff_eq.mpr hni⟩
  rw [Bool.and_eq_true]
  exact ⟨hmem i (by omega), hmem (i + 1) (by omega)⟩

/-- Claim C6: after every diagram-building operation — generating a
flowchart from steps in either ReactFlow variant, generating a complex
flowchart, rearranging the layout of a nonempty diagram, and deleting a
node from a diagram that already satisfies the invariant — every edge
source and target equals the id of some node. -/
theorem c6_edges_reference_nodes :
    (∀ steps isH,
      edgesValid { nodes := (generateFlowFromStepsApp steps isH).nodes,
                   edges := (generateFlowFromStepsApp steps isH).edges } = true)
    ∧ (∀ steps isH,
      edgesValid { nodes := (generateFlowFromStepsPt steps isH).nodes,
                   edges := (generateFlowFromStepsPt steps isH).edges } = true)
    ∧ (∀ structureList,
      edgesValid { nodes := (generateComplexFlowchart structureList).nodes,
                   edges := (generateComplexFlowchart structureList).edges } = true)
    ∧ (∀ isH fc, fc.nodes ≠ [] → edgesValid (rearrangeFlowchartPt isH fc) = true)
    ∧ (∀ nodeId fc, edgesValid fc = true → edgesValid (deleteNode nodeId fc) = true) := by
  refine ⟨?_, ?_, ?_, ?_, ?_⟩
  · intro steps isH
    refine edgesValid_of_seq _ _ (processSteps steps).length ?_ ?_
    · rw [show (generateFlowFromStepsApp steps isH).nodes
          = (buildFlowApp isH 0 (processSteps steps)).1 from rfl,
        buildFlowApp_nodes_id, ← List.range_eq_range']
    · exact buildFlowApp_edges_eq isH (processSteps steps)
  · intro steps isH
    refine edgesValid_of_seq _ _ (processSteps steps).length ?_ rfl
    rw [show (generateFlowFromStepsPt steps isH).nodes
        = buildNodesPt isH 0 (processSteps steps) from rfl,
      buildNodesPt_id, ← List.range_eq_range']
  · intro structureList
    rw [edgesValid, List.all_eq_true]
    intro e he
    obtain ⟨ht, hs⟩ := complexBuild_edges_endpoints structureList 0 e he
    rw [Bool.and_eq_true]
    constructor
    · rcases hs with hs | ⟨h0, _⟩
      · rw [List.any_eq_true]
        rw [List.mem_map] at hs
        obtain ⟨n, hn, hni⟩ := hs
        exact ⟨n, hn, beq_iff_eq.mpr hni⟩
      · omega
    · rw [List.any_eq_true]
      rw [List.mem_map] at ht
      obtain ⟨n, hn, hni⟩ := ht
      exact ⟨n, hn, beq_iff_eq.mpr hni⟩
  · intro isH fc hne
    rw [rearrangeFlowchartPt, if_neg (by simpa [List.length_eq_zero] using hne)]
    rw [edgesValid, List.all_eq_true]
    intro e he
    obtain ⟨⟨n1, hn1, hi1⟩, ⟨n2, hn2, hi2⟩⟩ :=
      consecEdges_endpoints (rearrangeNodesPt isH 0 fc.nodes) 0 e he
    rw [Bool.and_eq_true]
    exact ⟨List.any_eq_true.mpr ⟨n1, hn1, beq_iff_eq.mpr hi1⟩,
           List.any_eq_true.mpr ⟨n2, hn2, beq_iff_eq.mpr hi2⟩⟩
  · intro nodeId fc hvalid
    rw [edgesValid, List.all_eq_true] at hvalid ⊢
    intro e he
    rw [show (deleteNode nodeId fc).edges
        = fc.edges.filter (fun edge => edge.source != nodeId && edge.target != nodeId)
        from rfl, List.mem_filter] at he
    obtain ⟨hef, hpred⟩ := he
    rw [Bool.and_eq_true, bne_iff_ne, bne_iff_ne] at hpred
    have hv := hvalid e hef
    rw [Bool.and_eq_true] at hv
    obtain ⟨hv1, hv2⟩ := hv
    rw [List.any_eq_true] at hv1 hv2
    obtain ⟨n1, hn1, hb1⟩ := hv1
    obtain ⟨n2, hn2, hb2⟩ := hv2
    rw [beq_iff_eq] at hb1 hb2
    rw [Bool.and_eq_true]
    constructor
    · rw [List.any_eq_true]
      refine ⟨n1, ?_, beq_iff_eq.mpr hb1⟩
      rw [show (deleteNode nodeId fc).nodes
          = fc.nodes.filter (fun node => node.id != nodeId) from rfl, List.mem_filter]
      exact ⟨hn1, bne_iff_ne.mpr (by rw [hb1]; exact hpred.1)⟩
    · rw [List.any_eq_true]
      refine ⟨n2, ?_, beq_iff_eq.mpr hb2⟩
      rw [show (deleteNode nodeId fc).nodes
          = fc.nodes.filter (fun node => node.id != nodeId) from rfl, List.mem_filter]
      exact ⟨hn2, bne_iff_ne.mpr (by rw [hb2]; exact hpred.2)⟩

/-- Witness for claim C6: concrete instances of every part, including the
two hypotheses — a nonempty diagram for the rearrange part and a valid
diagram for the delete part. -/
theorem c6_edges_reference_nodes_witness :
    fcW.nodes ≠ [] ∧ edgesValid fcW = true
    ∧ edgesValid { nodes := (generateFlowFromStepsApp ["a", "b"] false).nodes,
                   edges := (generateFlowFromStepsApp ["a", "b"] false).edges } = true
    ∧ edgesValid (rearrangeFlowchartPt true fcW) = true
    ∧ edgesValid (deleteNode "node-0" fcW) = true :=
  ⟨by decide, by decide,
   c6_edges_reference_nodes.1 ["a", "b"] false,
   c6_edges_reference_nodes.2.2.2.1 true fcW (by decide),
   c6_edges_reference_nodes.2.2.2.2 "node-0" fcW (by decide)⟩
